import Mathlib

/-!
Verification of the hierarchical multi-strategy classification engine of
`core/classifier.py`: a shallow embedding of the taxonomy tree builder
(`_build_category_tree`), the level-by-level classifier (`_classify_with_llm`,
`_get_level_categories`, `_llm_classify_level`), the retrieval filter
(`_filter_quantile_with_tie`, `_get_top_score_embedding_results`) and the
fusion arbitrator (`_classify_with_fulltext_and_llm`,
`classify_with_fulltext_llm`), together with theorems about their behaviour.

Modelling conventions:
* Python strings are `String`; character-level helpers work on `String.data`.
* Python `dict`s are insertion-ordered association lists with in-place value
  replacement on key collision, exactly like CPython dictionaries.
* Python/numpy floating point scores are modelled by exact rationals `ℚ`;
  at the inputs considered here the branch decisions of the source agree
  with the exact-arithmetic ones.
* The external reasoning oracle and the semantic index are parameters:
  fallible calls are `Except Unit _` values, a `try ... except` block is an
  explicit `match` on the `Except`.
-/

namespace AiClassify

/-! ## Python string primitives -/

/-- Characters removed by Python `str.strip()` (ASCII whitespace; the strings
this development evaluates concretely only carry these). -/
def pyWs (c : Char) : Bool :=
  c == ' ' || c == '\t' || c == '\n' || c == '\r' ||
    c == Char.ofNat 11 || c == Char.ofNat 12

/-- `str.strip()` on a character list. -/
def pyStripL (l : List Char) : List Char :=
  ((l.dropWhile pyWs).reverse.dropWhile pyWs).reverse

/-- Python `s.strip()`. -/
def pyStrip (s : String) : String := ⟨pyStripL s.data⟩

/-- Does `hay` start with `needle`? -/
def hasPre : List Char → List Char → Bool
  | [], _ => true
  | _ :: _, [] => false
  | a :: as, b :: bs => a == b && hasPre as bs

/-- Python substring test `needle in hay` on character lists. -/
def containsSub (needle : List Char) : List Char → Bool
  | [] => needle.isEmpty
  | c :: rest => hasPre needle (c :: rest) || containsSub needle rest

/-- Python `needle in hay` on strings. -/
def strIn (needle hay : String) : Bool := containsSub needle.data hay.data

/-- Python slicing `s[:n]`. -/
def strTake (s : String) (n : Nat) : String := ⟨s.data.take n⟩

/-- Python `s.lower()` (ASCII case folding; identity on CJK characters). -/
def strLower (s : String) : String := ⟨s.data.map Char.toLower⟩

/-! ## Python dictionaries as insertion-ordered association lists -/

/-- Python `d[k] = v`: replace the value in place when the key is present
(insertion order kept), append otherwise. -/
def dictInsert {α : Type} (d : List (String × α)) (k : String) (v : α) :
    List (String × α) :=
  if (d.find? fun p => decide (p.1 = k)).isSome then
    d.map fun p => if p.1 = k then (k, v) else p
  else d ++ [(k, v)]

/-- Python `d[k]` / `k in d` (first entry with the key, if any). -/
def dictGet? {α : Type} (d : List (String × α)) (k : String) : Option α :=
  (d.find? fun p => decide (p.1 = k)).map Prod.snd

/-- Python in-place mutation `d[k] = f(d[k])` of the value stored at `k`. -/
def dictUpd {α : Type} (d : List (String × α)) (k : String) (f : α → α) :
    List (String × α) :=
  d.map fun p => if p.1 = k then (p.1, f p.2) else p

/-! ## Retrieval candidates and `_filter_quantile_with_tie` -/

/-- One element of the list handed to `_filter_quantile_with_tie`: the two
fields the function reads (`similarity_score` under the default `score_key`,
and `category_path` used for deduplication). -/
structure EmbCand where
  category_path : String
  similarity_score : ℚ
  deriving DecidableEq, Repr

/-- The ordering used by `sorted(data, key=lambda x: x[score_key],
reverse=True)`: descending similarity score. -/
def scoreGE (a b : EmbCand) : Prop := b.similarity_score ≤ a.similarity_score

instance : DecidableRel scoreGE := fun a b =>
  inferInstanceAs (Decidable (b.similarity_score ≤ a.similarity_score))

instance : IsTotal EmbCand scoreGE :=
  ⟨fun a b => le_total b.similarity_score a.similarity_score⟩

instance : IsTrans EmbCand scoreGE :=
  ⟨fun _ _ _ h1 h2 => le_trans h2 h1⟩

/-- Python's stable descending sort of the candidate list. -/
def sortDescByScore (data : List EmbCand) : List EmbCand :=
  List.insertionSort scoreGE data

/-- Ascending sort of the raw scores (performed internally by
`np.quantile`). -/
def sortAsc (values : List ℚ) : List ℚ := List.insertionSort (· ≤ ·) values

/-- `np.quantile(values, q)` with the default linear-interpolation method:
with ascending order statistics `a[0..n-1]` and `h = q * (n - 1)`, the result
is `a[⌊h⌋] + (h - ⌊h⌋) * (a[⌊h⌋ + 1] - a[⌊h⌋])` (degenerating to `a[⌊h⌋]`
at the upper end). The source only calls this with non-empty `values`. -/
def npQuantile (values : List ℚ) (q : ℚ) : ℚ :=
  let a := sortAsc values
  let h : ℚ := q * ((a.length : ℚ) - 1)
  let lo : Nat := (⌊h⌋).toNat
  let gamma : ℚ := h - (lo : ℚ)
  match a[lo]?, a[lo + 1]? with
  | some x, some y => x + gamma * (y - x)
  | some x, none => x
  | none, _ => 0

/-- The `seen_paths` loop: first-occurrence deduplication on
`category_path`. -/
def dedupByPathAux (seen : List String) : List EmbCand → List EmbCand
  | [] => []
  | d :: rest =>
    if d.category_path ∈ seen then dedupByPathAux seen rest
    else d :: dedupByPathAux (d.category_path :: seen) rest

/-- Deduplication by `category_path`, first occurrence wins. -/
def dedupByPath (l : List EmbCand) : List EmbCand := dedupByPathAux [] l

/-- Placeholder for the out-of-range accesses `sorted_data[0]` /
`sorted_data[1]`, which the source guards with `n_total >= 2` (both arms are
reached only on lists long enough to make them well defined). -/
def dummyCand : EmbCand := ⟨"", 0⟩

/-- `_filter_quantile_with_tie(data, "similarity_score", quantile,
min_advance)`: quantile threshold filtering with boundary-tie inclusion,
path deduplication, and a top-2 fallback. -/
def filterQuantileWithTie (data : List EmbCand) (quant : ℚ)
    (min_advance : Nat) : List EmbCand :=
  if data = [] then []
  else
    let sorted_data := sortDescByScore data
    let n_total := sorted_data.length
    if n_total ≤ min_advance then sorted_data
    else
      let scores := sorted_data.map EmbCand.similarity_score
      let threshold := npQuantile scores quant
      let advance_candidates :=
        sorted_data.filter fun d => decide (threshold ≤ d.similarity_score)
      let tie_score := threshold
      let tie_candidates :=
        sorted_data.filter fun d =>
          decide (|d.similarity_score - tie_score| < 1 / 10000)
      let advance_data :=
        sortDescByScore (dedupByPath (advance_candidates ++ tie_candidates))
      if advance_data.length < min_advance then
        let top2_score :=
          if 2 ≤ n_total then ((sorted_data[1]?).getD dummyCand).similarity_score
          else ((sorted_data[0]?).getD dummyCand).similarity_score
        dedupByPath
          (sorted_data.filter fun d => decide (top2_score ≤ d.similarity_score))
      else advance_data

/-! ## Taxonomy tree (`_build_category_tree`) -/

/-- A level-3 node: `{'code','name','level':3,'children':{}}` (its child
mapping is created empty and never read, so it is omitted). -/
structure CatNode3 where
  code : String
  name : String
  level : Nat
  deriving DecidableEq, Repr

/-- A level-2 node with its mapping of level-3 children. -/
structure CatNode2 where
  code : String
  name : String
  level : Nat
  children : List (String × CatNode3)
  deriving DecidableEq, Repr

/-- A level-1 node with its mapping of level-2 children. -/
structure CatNode1 where
  code : String
  name : String
  level : Nat
  children : List (String × CatNode2)
  deriving DecidableEq, Repr

/-- The tree: the root mapping from level-1 codes to level-1 nodes. -/
abbrev CatTree := List (String × CatNode1)

/-- One row of the `hdl_category` query:
`(category_code, cate_name, code_length)`. -/
structure CatRow where
  category_code : String
  cate_name : String
  code_length : Nat
  deriving DecidableEq, Repr

/-- One iteration of the `for cat in categories` loop of
`_build_category_tree`. -/
def buildStep (tree : CatTree) (cat : CatRow) : CatTree :=
  let code := cat.category_code
  let name := cat.cate_name
  if cat.code_length = 2 then
    dictInsert tree code ⟨code, name, 1, []⟩
  else if cat.code_length = 4 then
    let parent_code := strTake code 2
    if (dictGet? tree parent_code).isSome then
      dictUpd tree parent_code fun n1 =>
        { n1 with children := dictInsert n1.children code ⟨code, name, 2, []⟩ }
    else tree
  else if cat.code_length = 6 then
    let parent_code := strTake code 4
    let grandparent_code := strTake code 2
    match dictGet? tree grandparent_code with
    | none => tree
    | some n1 =>
      if (dictGet? n1.children parent_code).isSome then
        dictUpd tree grandparent_code fun m1 =>
          { m1 with children := dictUpd m1.children parent_code fun n2 =>
              { n2 with children := dictInsert n2.children code ⟨code, name, 3⟩ } }
      else tree
  else tree

/-- `_build_category_tree(categories)`. -/
def buildCategoryTree (categories : List CatRow) : CatTree :=
  categories.foldl buildStep []

/-- Structural invariant of built trees: key lists are duplicate free, every
node stores its own key as `code`, and every child key extends its parent key
(`code[:2]` for level 2, `code[:2]`/`code[:4]` for level 3). -/
def TreeWF (t : CatTree) : Prop :=
  (t.map Prod.fst).Nodup ∧
  ∀ p ∈ t, p.2.code = p.1 ∧
    (p.2.children.map Prod.fst).Nodup ∧
    ∀ q ∈ p.2.children, q.2.code = q.1 ∧ strTake q.1 2 = p.1 ∧
      (q.2.children.map Prod.fst).Nodup ∧
      ∀ r ∈ q.2.children, r.2.code = r.1 ∧ strTake r.1 2 = p.1 ∧ strTake r.1 4 = q.1

/-! ## Oracle answers: tag extraction (`re.findall`) and the matcher cascade
of `_llm_classify_level` -/

/-- The literal `\x7b"answer":"` opening a tagged answer. -/
def answerOpen : List Char := ("\x7b\"answer\":\"").data

/-- The literal `"\x7d` closing a tagged answer. -/
def answerClose : List Char := ("\"\x7d").data

/-- Lazy capture of `(.*?)` up to the closing tag: the shortest run of
characters followed by `"\x7d`; `.` does not cross a newline, so the capture
fails at one (and at the end of input). -/
def captureTo : List Char → Option (List Char)
  | [] => none
  | c :: rest =>
    if hasPre answerClose (c :: rest) then some []
    else if c = '\n' then none
    else (captureTo rest).map (c :: ·)

/-- `re.findall(..)[0]`: the captured group of the leftmost match of the
tagged-answer pattern, if any. -/
def extractFirstAnswer : List Char → Option (List Char)
  | [] => none
  | c :: rest =>
    if hasPre answerOpen (c :: rest) then
      match captureTo ((c :: rest).drop answerOpen.length) with
      | some cap => some cap
      | none => extractFirstAnswer rest
    else extractFirstAnswer rest

/-- An entry of the candidate list built by `_get_level_categories`:
`{'code': .., 'name': ..}`. -/
structure CatRef where
  code : String
  name : String
  deriving DecidableEq, Repr

/-- Exact matcher: `cat['name'] == class_answer`. -/
def exactMatch (ans : String) (cats : List CatRef) : Option CatRef :=
  cats.find? fun cat => decide (cat.name = ans)

/-- Containment matcher:
`cat['name'] in class_answer or class_answer in cat['name']`. -/
def containMatch (ans : String) (cats : List CatRef) : Option CatRef :=
  cats.find? fun cat => strIn cat.name ans || strIn ans cat.name

/-- `s.replace(" ", "").replace("、", "").replace("，", "")`. -/
def cleanPunct (s : String) : String :=
  ⟨s.data.filter fun c => !(c == ' ' || c == '、' || c == '，')⟩

/-- Normalised matcher: punctuation/whitespace-stripped containment either
direction. -/
def normMatch (ans : String) (cats : List CatRef) : Option CatRef :=
  let result_clean := cleanPunct ans
  cats.find? fun cat =>
    let cat_clean := cleanPunct cat.name
    strIn result_clean cat_clean || strIn cat_clean result_clean

/-- Case-insensitive matcher: lowercased equality or containment either
direction. -/
def caseMatch (ans : String) (cats : List CatRef) : Option CatRef :=
  let result_lower := strLower ans
  cats.find? fun cat =>
    let cat_lower := strLower cat.name
    decide (result_lower = cat_lower) || strIn result_lower cat_lower ||
      strIn cat_lower result_lower

/-- The cascade, in source order: exact, containment, normalised,
case-insensitive; the first matcher that succeeds wins. -/
def resolveAnswer (ans : String) (cats : List CatRef) : Option CatRef :=
  match exactMatch ans cats with
  | some cat => some cat
  | none =>
    match containMatch ans cats with
    | some cat => some cat
    | none =>
      match normMatch ans cats with
      | some cat => some cat
      | none => caseMatch ans cats

/-- The answer processing of `_llm_classify_level` after the oracle call:
strip the raw response, extract the first tagged answer, strip it, bail out
on the cannot-determine phrasings, then run the matcher cascade. -/
def processLevelResponse (result_text : String) (cats : List CatRef) :
    Option CatRef :=
  match extractFirstAnswer (pyStrip result_text).data with
  | none => none
  | some cap =>
    let class_answer : String := pyStrip ⟨cap⟩
    if strIn "无法确定" class_answer || strIn "不确定" class_answer then none
    else resolveAnswer class_answer cats

/-- The reasoning oracle for one level call: given the item name, the
candidate list, the level and the parent-path context (the data the prompt is
built from), it either raises (transport failure) or returns free response
text. -/
abbrev LevelOracle := String → List CatRef → Nat → Option String → Except Unit String

/-- `_llm_classify_level`: one oracle call inside `try/except`; a raise is
mapped to `None`, a response is processed as above. -/
def llmClassifyLevel (oracle : LevelOracle) (file_name : String)
    (cats : List CatRef) (level : Nat) (parent_name : Option String) :
    Option CatRef :=
  match oracle file_name cats level parent_name with
  | .error _ => none
  | .ok text => processLevelResponse text cats

/-- Python truthiness of the optional `parent_code` argument
(`None` and `""` are falsy). -/
def optTruthy : Option String → Bool
  | none => false
  | some s => !(decide (s = ""))

/-- `_get_level_categories(level, parent_code)`. -/
def getLevelCategories (cache : CatTree) (level : Nat)
    (parent_code : Option String) : List CatRef :=
  if level = 1 then
    cache.map fun p => (⟨p.1, p.2.name⟩ : CatRef)
  else if level = 2 ∧ optTruthy parent_code = true then
    match parent_code with
    | some pc =>
      match dictGet? cache pc with
      | some n1 => n1.children.map fun q => (⟨q.1, q.2.name⟩ : CatRef)
      | none => []
    | none => []
  else if level = 3 ∧ optTruthy parent_code = true then
    match parent_code with
    | some pc =>
      match cache.find? (fun p => (dictGet? p.2.children pc).isSome) with
      | some p =>
        match dictGet? p.2.children pc with
        | some n2 =>
          if n2.children = [] then []
          else n2.children.map fun r => (⟨r.1, r.2.name⟩ : CatRef)
        | none => []
      | none => []
    | none => []
  else []

/-- `_classify_with_llm(file_name)`: level-by-level classification.  The
source returns Python `None` both for an empty taxonomy and when level 1
yields nothing (its callers treat `None` and an empty path alike); a
non-empty accumulated path is returned as `some`. -/
def classifyWithLlm (cache : CatTree) (oracle : LevelOracle)
    (file_name : String) : Option (List String) :=
  if cache = [] then none
  else
    match llmClassifyLevel oracle file_name (getLevelCategories cache 1 none)
        1 none with
    | none => none
    | some c1 =>
      let tail :=
        match dictGet? cache c1.code with
        | none => []
        | some n1 =>
          if n1.children = [] then []
          else
            let level2_categories := getLevelCategories cache 2 (some c1.code)
            if level2_categories = [] then []
            else
              match llmClassifyLevel oracle file_name level2_categories 2
                  (some c1.name) with
              | none => []
              | some c2 =>
                let tail3 :=
                  match dictGet? cache c1.code with
                  | none => []
                  | some m1 =>
                    match dictGet? m1.children c2.code with
                    | none => []
                    | some n2 =>
                      if n2.children = [] then []
                      else
                        let level3_categories :=
                          getLevelCategories cache 3 (some c2.code)
                        if level3_categories = [] then []
                        else
                          match llmClassifyLevel oracle file_name
                              level3_categories 3
                              (some (c1.name ++ "/" ++ c2.name)) with
                          | none => []
                          | some c3 => [c3.name]
                c2.name :: tail3
      some (c1.name :: tail)

/-- The root-descending chain property of a returned path: each entry names a
node drawn from the children of the node matched at the previous level. -/
def ChainProp (t : CatTree) : List String → Prop
  | [a] => ∃ p ∈ t, p.2.name = a
  | [a, b] => ∃ p ∈ t, p.2.name = a ∧ ∃ q ∈ p.2.children, q.2.name = b
  | [a, b, c] => ∃ p ∈ t, p.2.name = a ∧ ∃ q ∈ p.2.children, q.2.name = b ∧
      ∃ r ∈ q.2.children, r.2.name = c
  | _ => False

/-! ## Retrieval (`_get_top_score_embedding_results`) -/

/-- `os.sep` (the engine joins category paths with the platform separator;
modelled as the POSIX `"/"`). -/
def osSep : String := "/"

/-- `os.sep.join(path)`. -/
def osJoin (path : List String) : String := String.intercalate osSep path

/-- Metadata record of one reference item in the semantic index; a missing
field is modelled as `""`, which is also what Python treats as falsy. -/
structure QueryMeta where
  big_class_name : String
  middle_class_name : String
  small_class_name : String
  deriving DecidableEq, Repr

/-- First row of a `collection.query` reply: the metadata list and the
distance list (`[]` when the reply carries no distances). -/
structure QueryReply where
  metadatas : List QueryMeta
  distances : List ℚ
  deriving DecidableEq, Repr

/-- distance → similarity: `1 - d/2` for `d ≤ 2`, else `0`, clamped to
`[0,1]`. -/
def similarityFromDistance (d : ℚ) : ℚ :=
  let s := if d ≤ 2 then 1 - d / 2 else 0
  max 0 (min 1 s)

/-- The taxonomy path segments appended from the truthy metadata fields. -/
def metaSegments (m : QueryMeta) : List String :=
  (if m.big_class_name ≠ "" then [m.big_class_name] else []) ++
    (if m.middle_class_name ≠ "" then [m.middle_class_name] else []) ++
      (if m.small_class_name ≠ "" then [m.small_class_name] else [])

/-- The result-processing loop of `_get_top_score_embedding_results`:
`distances[i]` pairs with `metadatas[i]`, a missing distance skips the entry,
similarity below `0.5` skips, and an empty reconstructed path skips. -/
def processQueryResults : List QueryMeta → List ℚ → List EmbCand
  | [], _ => []
  | _ :: ms, [] => processQueryResults ms []
  | m :: ms, d :: ds =>
    let similarity_score := similarityFromDistance d
    (if similarity_score < 1 / 2 then []
     else if metaSegments m = [] then []
     else [⟨String.intercalate osSep (metaSegments m), similarity_score⟩]) ++
      processQueryResults ms ds

/-- The `try` body of `_get_top_score_embedding_results`: the collection
lookup (`_get_vector_collection`, which re-raises its connection failure) and
the index query propagate failures to the enclosing handler. -/
def getTopScoreEmbeddingResultsTry (getCollection : Except Unit Unit)
    (query : String → Nat → Except Unit QueryReply)
    (file_name_without_ext : String) (n_results : Nat) :
    Except Unit (List EmbCand) :=
  if pyStrip file_name_without_ext = "" then .ok []
  else
    match getCollection with
    | .error e => .error e
    | .ok _ =>
      match query file_name_without_ext n_results with
      | .error e => .error e
      | .ok results =>
        if results.metadatas = [] then .ok []
        else
          let classification_results :=
            processQueryResults results.metadatas results.distances
          if classification_results = [] then .ok []
          else .ok (filterQuantileWithTie classification_results (9 / 10) 2)

/-- `_get_top_score_embedding_results`: the `except Exception` clause turns
any raise out of the body into the empty list. -/
def getTopScoreEmbeddingResults (getCollection : Except Unit Unit)
    (query : String → Nat → Except Unit QueryReply)
    (file_name_without_ext : String) (n_results : Nat) : List EmbCand :=
  match getTopScoreEmbeddingResultsTry getCollection query
      file_name_without_ext n_results with
  | .ok v => v
  | .error _ => []

/-! ## Fusion arbitrator (`_classify_with_fulltext_and_llm`,
`classify_with_fulltext_llm`) -/

/-- A merged arbitration candidate `{'path','score','source'}`. -/
structure ArbCand where
  path : String
  score : Option ℚ
  source : String
  deriving DecidableEq, Repr

/-- Outcome of the oracle arbitration call together with
`re.search(r'\x7b[^\x7d]+\x7d', ..)` plus `json.loads` on its raw response,
modelled as an oracle-supplied value: the call raised, or a JSON object with
`category`/`reason` fields was extracted and decoded, or no JSON object could
be extracted or decoded (keeping the raw text). -/
inductive ArbResp where
  | raised : ArbResp
  | parsed (category reason : String) (raw : String) : ArbResp
  | unparsed (raw : String) : ArbResp
  deriving DecidableEq, Repr

/-- `{'category_path','reason'}` returned by
`_classify_with_fulltext_and_llm`. -/
structure ArbResult where
  category_path : String
  reason : String
  deriving DecidableEq, Repr

/-- Candidate-list construction at the top of
`_classify_with_fulltext_and_llm`: retrieval candidates in order, then the
hierarchical path (if truthy) unless its joined string already occurs. -/
def buildCandidates (embedding_results : List EmbCand)
    (llm_category_path : Option (List String)) : List ArbCand :=
  let cands := embedding_results.map fun r =>
    (⟨r.category_path, some r.similarity_score, "向量检索"⟩ : ArbCand)
  match llm_category_path with
  | some (h :: t) =>
    let llm_path_str := osJoin (h :: t)
    if cands.any fun cat => decide (cat.path = llm_path_str) then cands
    else cands ++ [⟨llm_path_str, none, "LLM逐级分类"⟩]
  | _ => cands

/-- Fallback reason when the decoded category is not a candidate and a
score-carrying candidate exists. -/
def mismatchVecReason (category : String) : String :=
  "LLM返回的分类不在候选列表中，使用向量检索相似度最高的分类。原始返回: " ++ category

/-- Fallback reason when the decoded category is not a candidate and no
candidate carries a score. -/
def mismatchFirstReason (category : String) : String :=
  "LLM返回的分类不在候选列表中，使用第一个候选分类。原始返回: " ++ category

/-- Fallback reason when no JSON object could be extracted or decoded
(`result_text[:200]` is the truncated raw response). -/
def parseFailReason (raw : String) : String :=
  "LLM响应解析失败，使用相似度最高的分类。原始响应: " ++ (⟨raw.data.take 200⟩ : String)

/-- Placeholder for the (unreachable) access `candidate_categories[0]` on an
empty list, which the source guards against. -/
def dummyArbCand : ArbCand := ⟨"", none, ""⟩

/-- `_classify_with_fulltext_and_llm(file_path, embedding_results,
llm_category_path)` with the oracle call and response decoding supplied as
`resp`. -/
def classifyWithFulltextAndLlm (file_name_without_ext : String)
    (embedding_results : List EmbCand) (llm_category_path : Option (List String))
    (resp : ArbResp) : Option ArbResult :=
  if pyStrip file_name_without_ext = "" then none
  else
    let candidate_categories := buildCandidates embedding_results llm_category_path
    if candidate_categories = [] then none
    else
      match resp with
      | .raised => none
      | .parsed category reason _ =>
        if candidate_categories.any fun cat => decide (cat.path = category) then
          some ⟨category, reason⟩
        else
          match candidate_categories.find? fun cat => cat.score.isSome with
          | some vector_result =>
            some ⟨vector_result.path, mismatchVecReason category⟩
          | none =>
            some ⟨(candidate_categories.headD dummyArbCand).path,
              mismatchFirstReason category⟩
      | .unparsed raw =>
        some ⟨(candidate_categories.headD dummyArbCand).path, parseFailReason raw⟩

/-- `{'category_path','reason','similarity_score'}` returned by
`classify_with_fulltext_llm`. -/
structure FusedResult where
  category_path : String
  reason : String
  similarity_score : Option ℚ
  deriving DecidableEq, Repr

/-- `classify_with_fulltext_llm(file_path)`, with the upstream retrieval
result, the upstream hierarchical result (`None` also when that call raised,
as its `try/except` leaves the variable unset) and the arbitration response
as parameters. -/
def classifyWithFulltextLlm (file_name_without_ext : String)
    (embedding_results : List EmbCand) (llm_category_path : Option (List String))
    (resp : ArbResp) : Option FusedResult :=
  if embedding_results = [] then
    match llm_category_path with
    | some (h :: t) =>
      some ⟨osJoin (h :: t), "向量检索未找到匹配结果，使用LLM逐级分类结果", none⟩
    | _ => some ⟨"其他/未分类", "向量检索和LLM逐级分类均未找到匹配分类", none⟩
  else
    match classifyWithFulltextAndLlm file_name_without_ext embedding_results
        llm_category_path resp with
    | some llm_result =>
      some ⟨llm_result.category_path, llm_result.reason,
        match embedding_results with
        | e :: _ => some e.similarity_score
        | [] => none⟩
    | none =>
      match embedding_results with
      | e :: _ =>
        some ⟨e.category_path, "LLM分类失败，使用向量检索相似度最高的分类",
          some e.similarity_score⟩
      | [] =>
        match llm_category_path with
        | some (h :: t) =>
          some ⟨osJoin (h :: t), "LLM分类失败，使用LLM逐级分类结果", none⟩
        | _ => some ⟨"其他/未分类", "LLM分类失败，且无其他可用结果", none⟩

/-- Modelled from the spec's words only, for comparison with the source: "the
highest-scored retrieval candidate" of a merged list, i.e. a candidate of
maximal score among those carrying one. -/
def specHighestScored (cands : List ArbCand) : Option ArbCand :=
  cands.foldl
    (fun acc cat =>
      match cat.score, acc with
      | none, _ => acc
      | some _, none => some cat
      | some s, some a => if a.score.getD 0 < s then some cat else acc)
    none

/-! # Helper lemmas -/

theorem sortDescByScore_perm (data : List EmbCand) :
    (sortDescByScore data).Perm data :=
  List.perm_insertionSort scoreGE data

theorem sortDescByScore_sorted (data : List EmbCand) :
    List.Sorted scoreGE (sortDescByScore data) :=
  List.sorted_insertionSort scoreGE data

theorem sortDescByScore_length (data : List EmbCand) :
    (sortDescByScore data).length = data.length :=
  (sortDescByScore_perm data).length_eq

theorem sortDescByScore_ne_nil {data : List EmbCand} (h : data ≠ []) :
    sortDescByScore data ≠ [] := by
  intro hs
  apply h
  have := sortDescByScore_length data
  rw [hs] at this
  exact List.length_eq_zero.mp this.symm

theorem dedupByPathAux_path_mem (seen : List String) (l : List EmbCand)
    (z : EmbCand) (hz : z ∈ l) (hs : z.category_path ∉ seen) :
    ∃ w ∈ dedupByPathAux seen l, w.category_path = z.category_path := by
  induction l generalizing seen with
  | nil => cases hz
  | cons x xs ih =>
    rcases List.mem_cons.mp hz with rfl | hz'
    · refine ⟨z, ?_, rfl⟩
      simp [dedupByPathAux, hs]
    · by_cases hx : x.category_path ∈ seen
      · have := ih seen hz' hs
        simpa [dedupByPathAux, hx] using this
      · by_cases hzx : z.category_path = x.category_path
        · exact ⟨x, by simp [dedupByPathAux, hx], hzx.symm⟩
        · obtain ⟨w, hw, hwp⟩ :=
            ih (x.category_path :: seen) hz' (by simp [hzx, hs])
          refine ⟨w, ?_, hwp⟩
          simp only [dedupByPathAux, if_neg hx]
          exact List.mem_cons_of_mem x hw

theorem two_mem_two_le_length {α : Type} {l : List α} {a b : α}
    (ha : a ∈ l) (hb : b ∈ l) (hne : a ≠ b) : 2 ≤ l.length := by
  match l with
  | [] => cases ha
  | [x] =>
    rw [List.mem_singleton] at ha hb
    exact absurd (ha.trans hb.symm) hne
  | x :: y :: rest => simp only [List.length_cons]; omega

theorem dedupByPath_two_le {l : List EmbCand} {a b : EmbCand}
    (ha : a ∈ l) (hb : b ∈ l) (hab : a.category_path ≠ b.category_path) :
    2 ≤ (dedupByPath l).length := by
  obtain ⟨wa, hwa, hpa⟩ := dedupByPathAux_path_mem [] l a ha (by simp)
  obtain ⟨wb, hwb, hpb⟩ := dedupByPathAux_path_mem [] l b hb (by simp)
  exact two_mem_two_le_length hwa hwb fun h => hab (by rw [← hpa, h, hpb])

theorem dedupByPath_cons_ne_nil (d : EmbCand) (rest : List EmbCand) :
    dedupByPath (d :: rest) ≠ [] := by
  simp [dedupByPath, dedupByPathAux]

/-! # Claim C1 -/

/-- **C1**, amended.  The claimed bound "at least min(2, number of distinct
category paths in the input)" fails because both filter stages deduplicate by
path: when the top-scoring tied candidates all share one path, a single
candidate is returned (see the counterexample).  What holds for every
non-empty input at quantile 0.9 and `min_advance` 2: the result is non-empty,
and at least 2 candidates are returned whenever the two top-ranked candidates
of the descending sort carry distinct paths — in particular at least
min(2, number of distinct paths) whenever the two highest-scored candidates
have distinct paths. -/
theorem C1_filter_lower_bound_amended (data : List EmbCand) (hne : data ≠ []) :
    filterQuantileWithTie data (9 / 10) 2 ≠ [] ∧
    (∀ a b rest, sortDescByScore data = a :: b :: rest →
      a.category_path ≠ b.category_path →
      2 ≤ (filterQuantileWithTie data (9 / 10) 2).length) := by
  simp only [filterQuantileWithTie, if_neg hne]
  by_cases hsm : (sortDescByScore data).length ≤ 2
  · rw [if_pos hsm]
    refine ⟨sortDescByScore_ne_nil hne, ?_⟩
    intro a b rest hab hpath
    rw [hab]
    simp only [List.length_cons]
    omega
  · rw [if_neg hsm]
    rcases hsd : sortDescByScore data with _ | ⟨s0, _ | ⟨s1, srest⟩⟩
    · rw [hsd] at hsm; simp at hsm
    · rw [hsd] at hsm; simp at hsm
    · have hsorted := sortDescByScore_sorted data
      rw [hsd] at hsorted
      have h01 : scoreGE s0 s1 :=
        (List.sorted_cons.mp hsorted).1 s1 (List.mem_cons_self s1 srest)
      have h2n : 2 ≤ (s0 :: s1 :: srest).length := by
        simp only [List.length_cons]; omega
      simp only [if_pos h2n, List.getElem?_cons_succ, List.getElem?_cons_zero,
        Option.getD_some]
      have hfil : (s0 :: s1 :: srest).filter
          (fun d => decide (s1.similarity_score ≤ d.similarity_score)) =
          s0 :: s1 ::
            (srest.filter fun d =>
              decide (s1.similarity_score ≤ d.similarity_score)) := by
        simp only [List.filter_cons,
          decide_eq_true (show s1.similarity_score ≤ s0.similarity_score from h01),
          decide_eq_true (le_refl s1.similarity_score), if_true]
      simp only [hfil]
      split_ifs with hA
      · constructor
        · exact dedupByPath_cons_ne_nil _ _
        · intro a b rest' hab hpath
          have ha : s0 = a := by injection hab
          have hb : s1 = b := by
            have hx := hab
            injection hx with x1 x2
            injection x2
          subst ha; subst hb
          exact dedupByPath_two_le (List.mem_cons_self _ _)
            (List.mem_cons_of_mem _ (List.mem_cons_self _ _)) hpath
      · push_neg at hA
        constructor
        · exact List.ne_nil_of_length_pos (by omega)
        · intro a b rest' hab hpath
          omega

/-- Witness for C1: on candidates A(0.9), B(0.8), C(0.1) the filter returns a
non-empty list with at least two candidates. -/
theorem C1_filter_lower_bound_witness :
    filterQuantileWithTie
        [⟨"A", Rat.mk' 9 10⟩, ⟨"B", Rat.mk' 4 5⟩, ⟨"C", Rat.mk' 1 10⟩]
        (9 / 10) 2 ≠ [] ∧
    2 ≤ (filterQuantileWithTie
        [⟨"A", Rat.mk' 9 10⟩, ⟨"B", Rat.mk' 4 5⟩, ⟨"C", Rat.mk' 1 10⟩]
        (9 / 10) 2).length := by
  have h := C1_filter_lower_bound_amended
    [⟨"A", Rat.mk' 9 10⟩, ⟨"B", Rat.mk' 4 5⟩, ⟨"C", Rat.mk' 1 10⟩] (by decide)
  exact ⟨h.1, h.2 ⟨"A", Rat.mk' 9 10⟩ ⟨"B", Rat.mk' 4 5⟩ [⟨"C", Rat.mk' 1 10⟩]
    (by decide) (by decide)⟩

/-- Counterexample to C1 as stated: the input A(0.9), A(0.9), B(0.1) has two
distinct category paths, but the filter returns a single candidate — fewer
than min(2, number of distinct paths) = 2.  (The 0.9-quantile threshold is
0.9, both tied A-candidates advance and deduplicate to one, and the top-2
fallback also only reaches the two A-candidates.) -/
theorem C1_filter_lower_bound_cex :
    (filterQuantileWithTie [⟨"A", 9 / 10⟩, ⟨"A", 9 / 10⟩, ⟨"B", 1 / 10⟩]
        (9 / 10) 2).length <
      min 2 (([⟨"A", (9 : ℚ) / 10⟩, ⟨"A", 9 / 10⟩, ⟨"B", 1 / 10⟩].map
        EmbCand.category_path).dedup).length := by
  have hs : sortDescByScore [⟨"A", 9 / 10⟩, ⟨"A", 9 / 10⟩, ⟨"B", 1 / 10⟩] =
      [⟨"A", 9 / 10⟩, ⟨"A", 9 / 10⟩, ⟨"B", 1 / 10⟩] := by
    norm_num [sortDescByScore, List.insertionSort, List.orderedInsert, scoreGE]
  have hq : npQuantile [9 / 10, 9 / 10, 1 / 10] (9 / 10) = 9 / 10 := by
    have h : sortAsc [9 / 10, 9 / 10, 1 / 10] = [1 / 10, 9 / 10, 9 / 10] := by
      norm_num [sortAsc, List.insertionSort, List.orderedInsert]
    simp only [npQuantile, h]
    norm_num [show ((1 : ℤ).toNat) = 1 from rfl, List.getElem_cons_succ,
      List.getElem_cons_zero]
  have hval : filterQuantileWithTie [⟨"A", 9 / 10⟩, ⟨"A", 9 / 10⟩, ⟨"B", 1 / 10⟩]
      (9 / 10) 2 = [⟨"A", 9 / 10⟩] := by
    simp only [filterQuantileWithTie, hs]
    norm_num [hq, abs_lt, List.filter_cons, dedupByPath, dedupByPathAux,
      sortDescByScore, List.insertionSort, List.orderedInsert, scoreGE]
    simp
  rw [hval]
  simp [List.dedup_cons_of_mem, List.dedup_cons_of_not_mem]

/-! # Claim C2 -/

/-- **C2**, confirmed.  For five candidates with pairwise distinct paths and
scores 0.95, 0.9, 0.9, 0.9, 0.4, the filter at quantile 0.9 / `min_advance` 2
returns exactly the 0.95-scored candidate and all three 0.9-scored
candidates, and the 0.4-scored candidate is excluded.  (The interpolated
0.9-quantile is 0.93, so only the 0.95 candidate clears it and the top-2
fallback then advances every candidate scoring at least the second-highest
score 0.9.) -/
theorem C2_quantile_tie_example (p1 p2 p3 p4 p5 : String)
    (h12 : p1 ≠ p2) (h13 : p1 ≠ p3) (h14 : p1 ≠ p4) (h15 : p1 ≠ p5)
    (h23 : p2 ≠ p3) (h24 : p2 ≠ p4) (h25 : p2 ≠ p5)
    (h34 : p3 ≠ p4) (h35 : p3 ≠ p5) (h45 : p4 ≠ p5) :
    filterQuantileWithTie
        [⟨p1, 19 / 20⟩, ⟨p2, 9 / 10⟩, ⟨p3, 9 / 10⟩, ⟨p4, 9 / 10⟩, ⟨p5, 2 / 5⟩]
        (9 / 10) 2 =
      [⟨p1, 19 / 20⟩, ⟨p2, 9 / 10⟩, ⟨p3, 9 / 10⟩, ⟨p4, 9 / 10⟩] ∧
    (⟨p5, 2 / 5⟩ : EmbCand) ∉ filterQuantileWithTie
        [⟨p1, 19 / 20⟩, ⟨p2, 9 / 10⟩, ⟨p3, 9 / 10⟩, ⟨p4, 9 / 10⟩, ⟨p5, 2 / 5⟩]
        (9 / 10) 2 := by
  have hs : sortDescByScore
      [⟨p1, 19 / 20⟩, ⟨p2, 9 / 10⟩, ⟨p3, 9 / 10⟩, ⟨p4, 9 / 10⟩, ⟨p5, 2 / 5⟩] =
      [⟨p1, 19 / 20⟩, ⟨p2, 9 / 10⟩, ⟨p3, 9 / 10⟩, ⟨p4, 9 / 10⟩, ⟨p5, 2 / 5⟩] := by
    norm_num [sortDescByScore, List.insertionSort, List.orderedInsert, scoreGE]
  have hq : npQuantile [19 / 20, 9 / 10, 9 / 10, 9 / 10, 2 / 5] (9 / 10) =
      93 / 100 := by
    have h : sortAsc [19 / 20, 9 / 10, 9 / 10, 9 / 10, 2 / 5] =
        [2 / 5, 9 / 10, 9 / 10, 9 / 10, 19 / 20] := by
      norm_num [sortAsc, List.insertionSort, List.orderedInsert]
    simp only [npQuantile, h]
    norm_num [show ((3 : ℤ).toNat) = 3 from rfl, List.getElem_cons_succ,
      List.getElem_cons_zero]
  have hmain : filterQuantileWithTie
      [⟨p1, 19 / 20⟩, ⟨p2, 9 / 10⟩, ⟨p3, 9 / 10⟩, ⟨p4, 9 / 10⟩, ⟨p5, 2 / 5⟩]
      (9 / 10) 2 =
      [⟨p1, 19 / 20⟩, ⟨p2, 9 / 10⟩, ⟨p3, 9 / 10⟩, ⟨p4, 9 / 10⟩] := by
    simp only [filterQuantileWithTie, hs]
    norm_num [hq, abs_lt, List.filter_cons, dedupByPath, dedupByPathAux,
      sortDescByScore, List.insertionSort, List.orderedInsert, scoreGE]
    simp [Ne.symm h12, Ne.symm h13, Ne.symm h14, Ne.symm h23, Ne.symm h24,
      Ne.symm h34]
  refine ⟨hmain, ?_⟩
  rw [hmain]
  simp [Ne.symm h15, Ne.symm h25, Ne.symm h35, Ne.symm h45]

/-- Witness for C2 at concrete paths P1..P5. -/
theorem C2_quantile_tie_example_witness :
    filterQuantileWithTie
        [⟨"P1", 19 / 20⟩, ⟨"P2", 9 / 10⟩, ⟨"P3", 9 / 10⟩, ⟨"P4", 9 / 10⟩,
          ⟨"P5", 2 / 5⟩] (9 / 10) 2 =
      [⟨"P1", 19 / 20⟩, ⟨"P2", 9 / 10⟩, ⟨"P3", 9 / 10⟩, ⟨"P4", 9 / 10⟩] :=
  (C2_quantile_tie_example "P1" "P2" "P3" "P4" "P5" (by decide) (by decide)
    (by decide) (by decide) (by decide) (by decide) (by decide) (by decide)
    (by decide) (by decide)).1

/-! # Claim C7 -/

/-- **C7**, amended.  For at most `min_advance` = 2 candidates the source
returns `sorted_data`, not the input list: all candidates are kept — the
result is a permutation of the input with no filtering or deduplication — but
they are returned in stable descending score order, so the input order is
preserved only when the input is already descending. -/
theorem C7_small_input_amended (data : List EmbCand) (hlen : data.length ≤ 2) :
    filterQuantileWithTie data (9 / 10) 2 = sortDescByScore data ∧
    (filterQuantileWithTie data (9 / 10) 2).Perm data ∧
    List.Sorted scoreGE (filterQuantileWithTie data (9 / 10) 2) := by
  have heq : filterQuantileWithTie data (9 / 10) 2 = sortDescByScore data := by
    by_cases hne : data = []
    · subst hne
      simp [filterQuantileWithTie, sortDescByScore, List.insertionSort]
    · have h2 : (sortDescByScore data).length ≤ 2 := by
        rw [sortDescByScore_length]; exact hlen
      simp only [filterQuantileWithTie, if_neg hne, if_pos h2]
  rw [heq]
  exact ⟨rfl, sortDescByScore_perm data, sortDescByScore_sorted data⟩

/-- Witness for C7: the two-candidate instance A(0.3), B(0.7). -/
theorem C7_small_input_witness :
    filterQuantileWithTie [⟨"A", Rat.mk' 3 10⟩, ⟨"B", Rat.mk' 7 10⟩] (9 / 10) 2 =
      sortDescByScore [⟨"A", Rat.mk' 3 10⟩, ⟨"B", Rat.mk' 7 10⟩] ∧
    (filterQuantileWithTie [⟨"A", Rat.mk' 3 10⟩, ⟨"B", Rat.mk' 7 10⟩]
        (9 / 10) 2).Perm [⟨"A", Rat.mk' 3 10⟩, ⟨"B", Rat.mk' 7 10⟩] :=
  ⟨(C7_small_input_amended [⟨"A", Rat.mk' 3 10⟩, ⟨"B", Rat.mk' 7 10⟩]
      (by decide)).1,
   (C7_small_input_amended [⟨"A", Rat.mk' 3 10⟩, ⟨"B", Rat.mk' 7 10⟩]
      (by decide)).2.1⟩

/-- Counterexample to C7 as stated: two candidates given in ascending score
order, A(0.3) then B(0.7), are returned reordered as B, A — not "the same
order as given". -/
theorem C7_small_input_cex :
    filterQuantileWithTie [⟨"A", Rat.mk' 3 10⟩, ⟨"B", Rat.mk' 7 10⟩] (9 / 10) 2 =
      [⟨"B", Rat.mk' 7 10⟩, ⟨"A", Rat.mk' 3 10⟩] ∧
    filterQuantileWithTie [⟨"A", Rat.mk' 3 10⟩, ⟨"B", Rat.mk' 7 10⟩] (9 / 10) 2 ≠
      [⟨"A", Rat.mk' 3 10⟩, ⟨"B", Rat.mk' 7 10⟩] ∧
    (Rat.mk' 3 10 : ℚ) = 3 / 10 ∧ (Rat.mk' 7 10 : ℚ) = 7 / 10 := by
  refine ⟨by decide, by decide, ?_, ?_⟩ <;>
    rw [Rat.mk'_eq_divInt, Rat.divInt_eq_div] <;> norm_num

theorem resolveAnswer_mem {ans : String} {cats : List CatRef} {cat : CatRef}
    (h : resolveAnswer ans cats = some cat) : cat ∈ cats := by
  unfold resolveAnswer at h
  rcases he : exactMatch ans cats with _ | c
  · rw [he] at h
    rcases hc : containMatch ans cats with _ | c
    · rw [hc] at h
      rcases hn : normMatch ans cats with _ | c
      · rw [hn] at h
        exact List.mem_of_find?_eq_some h
      · rw [hn] at h
        cases h
        exact List.mem_of_find?_eq_some hn
    · rw [hc] at h
      cases h
      exact List.mem_of_find?_eq_some hc
  · rw [he] at h
    cases h
    exact List.mem_of_find?_eq_some he

theorem processLevelResponse_mem {text : String} {cats : List CatRef}
    {cat : CatRef} (h : processLevelResponse text cats = some cat) :
    cat ∈ cats := by
  simp only [processLevelResponse] at h
  split at h
  · cases h
  · split at h
    · cases h
    · exact resolveAnswer_mem h

theorem llmClassifyLevel_mem {oracle : LevelOracle} {file_name : String}
    {cats : List CatRef} {level : Nat} {parent_name : Option String}
    {cat : CatRef}
    (h : llmClassifyLevel oracle file_name cats level parent_name = some cat) :
    cat ∈ cats := by
  simp only [llmClassifyLevel] at h
  split at h
  · cases h
  · exact processLevelResponse_mem h

/-! # Claim C3 -/

/-- **C3**, amended.  The claim that an unavailable index propagates as a
retrieval failure is false: `_get_vector_collection` does re-raise its
connection failure, but the whole body of `_get_top_score_embedding_results`
sits in a `try/except Exception` that returns `[]`, so the caller receives an
empty candidate list — exactly what an available index with an empty result
set produces.  The re-raise is visible only inside the `try` body. -/
theorem C3_unavailable_index_amended :
    (∀ query name n, getTopScoreEmbeddingResults (.error ()) query name n = []) ∧
    (∀ query name n reply, query name n = Except.ok reply →
      reply.metadatas = [] →
      getTopScoreEmbeddingResults (.ok ()) query name n = []) ∧
    (∀ query name n, pyStrip name ≠ "" →
      getTopScoreEmbeddingResultsTry (.error ()) query name n = .error ()) := by
  refine ⟨?_, ?_, ?_⟩
  · intro query name n
    by_cases h : pyStrip name = "" <;>
      simp [getTopScoreEmbeddingResults, getTopScoreEmbeddingResultsTry, h]
  · intro query name n reply hq hm
    by_cases h : pyStrip name = "" <;>
      simp [getTopScoreEmbeddingResults, getTopScoreEmbeddingResultsTry, h, hq, hm]
  · intro query name n h
    simp [getTopScoreEmbeddingResultsTry, h]

/-- Witness for C3 at a concrete query function and file name. -/
theorem C3_unavailable_index_witness :
    getTopScoreEmbeddingResults (.error ()) (fun _ _ => .ok ⟨[], []⟩) "水泵" 100 = [] ∧
    getTopScoreEmbeddingResults (.ok ()) (fun _ _ => .ok ⟨[], []⟩) "水泵" 100 = [] ∧
    getTopScoreEmbeddingResultsTry (.error ()) (fun _ _ => .ok ⟨[], []⟩) "水泵" 100 =
      .error () :=
  ⟨C3_unavailable_index_amended.1 (fun _ _ => .ok ⟨[], []⟩) "水泵" 100,
   C3_unavailable_index_amended.2.1 (fun _ _ => .ok ⟨[], []⟩) "水泵" 100 ⟨[], []⟩
     rfl rfl,
   C3_unavailable_index_amended.2.2 (fun _ _ => .ok ⟨[], []⟩) "水泵" 100 (by decide)⟩

/-- Counterexample to C3 as stated: with the vector collection unavailable
(`.error ()`), `_get_top_score_embedding_results` returns the value `[]` —
it does not raise — and this return is identical to the one produced by an
available index whose query yields an empty result set, so no retrieval
failure reaches the caller. -/
theorem C3_unavailable_index_cex :
    getTopScoreEmbeddingResults (.error ()) (fun _ _ => .ok ⟨[], []⟩) "泵" 100 = [] ∧
    getTopScoreEmbeddingResults (.ok ()) (fun _ _ => .ok ⟨[], []⟩) "泵" 100 =
      getTopScoreEmbeddingResults (.error ()) (fun _ _ => .ok ⟨[], []⟩) "泵" 100 := by
  exact ⟨by decide, by decide⟩

/-! # Claim C4 -/

/-- **C4**, amended.  Only the hierarchical-only case returns its input
directly: with no retrieval candidates and a non-empty hierarchical path the
result is that path with a source note and no similarity score.  With
retrieval candidates and no hierarchical path the engine does NOT return
directly: it still runs `_classify_with_fulltext_and_llm`, so the arbitration
oracle chooses among the retrieval candidates (falling back to the first
retrieval candidate if that fails), and the similarity score attached is the
first retrieval candidate's. -/
theorem C4_single_input_amended (file_name : String) (emb : List EmbCand)
    (llm : Option (List String)) (resp : ArbResp) :
    (∀ h t, emb = [] → llm = some (h :: t) →
      classifyWithFulltextLlm file_name emb llm resp =
        some ⟨osJoin (h :: t), "向量检索未找到匹配结果，使用LLM逐级分类结果", none⟩) ∧
    (∀ e es, emb = e :: es →
      classifyWithFulltextLlm file_name emb llm resp =
        match classifyWithFulltextAndLlm file_name emb llm resp with
        | some r => some ⟨r.category_path, r.reason, some e.similarity_score⟩
        | none => some ⟨e.category_path, "LLM分类失败，使用向量检索相似度最高的分类",
            some e.similarity_score⟩) := by
  constructor
  · rintro h t rfl rfl
    simp [classifyWithFulltextLlm]
  · rintro e es rfl
    simp only [classifyWithFulltextLlm]
    rw [if_neg (by simp)]

/-- Witness for C4: the hierarchical-only branch at a concrete path. -/
theorem C4_single_input_witness :
    classifyWithFulltextLlm "f" [] (some ["泵类", "离心泵"]) .raised =
      some ⟨osJoin ["泵类", "离心泵"],
        "向量检索未找到匹配结果，使用LLM逐级分类结果", none⟩ ∧
    osJoin ["泵类", "离心泵"] = "泵类/离心泵" :=
  ⟨(C4_single_input_amended "f" [] (some ["泵类", "离心泵"]) ArbResp.raised).1
      "泵类" ["离心泵"] rfl rfl,
   by decide⟩

/-- Counterexample to C4 as stated: with only retrieval candidates non-empty
(A scored 0.9, B scored 0.8; hierarchical path `None`), the returned
`category_path` follows the arbitration oracle's choice — two different
oracle responses yield two different paths, and the reason is the oracle's
free text, not a source note — refuting "returned directly ... without the
arbitration oracle choosing among candidates". -/
theorem C4_single_input_cex :
    classifyWithFulltextLlm "f" [⟨"A", Rat.mk' 9 10⟩, ⟨"B", Rat.mk' 4 5⟩] none
        (.parsed "B" "r" "raw") = some ⟨"B", "r", some (Rat.mk' 9 10)⟩ ∧
    classifyWithFulltextLlm "f" [⟨"A", Rat.mk' 9 10⟩, ⟨"B", Rat.mk' 4 5⟩] none
        (.parsed "A" "r2" "raw") = some ⟨"A", "r2", some (Rat.mk' 9 10)⟩ ∧
    "B" ≠ "A" ∧ (Rat.mk' 9 10 : ℚ) = 9 / 10 ∧ (Rat.mk' 4 5 : ℚ) = 4 / 5 := by
  refine ⟨by decide, by decide, by decide, ?_, ?_⟩ <;>
    rw [Rat.mk'_eq_divInt, Rat.divInt_eq_div] <;> norm_num

/-! # Claim C5 -/

/-- **C5**, amended.  When the decoded category matches no candidate, the
source falls back to the FIRST candidate carrying a score (the first
retrieval candidate in the merged list) — which is the highest-scored
retrieval candidate only when the retrieval list is descending-sorted, as the
retrieval ranker produces it, but not for every merged candidate list (see
the counterexample) — else to the first merged candidate, with the mismatch
recorded in the reason.  When no JSON object can be extracted or decoded, it
falls back to the first merged candidate with a truncated excerpt of the raw
response.  In both cases arbitration over a non-empty candidate list returns
`some` result whose path is one of the merged candidates' paths. -/
theorem C5_oracle_fallback_amended (file_name : String) (emb : List EmbCand)
    (llm : Option (List String)) (hname : pyStrip file_name ≠ "")
    (hcands : buildCandidates emb llm ≠ []) :
    (∀ category reason raw,
      (∀ cat ∈ buildCandidates emb llm, cat.path ≠ category) →
      classifyWithFulltextAndLlm file_name emb llm (.parsed category reason raw) =
        match (buildCandidates emb llm).find? fun cat => cat.score.isSome with
        | some vr => some ⟨vr.path, mismatchVecReason category⟩
        | none => some ⟨((buildCandidates emb llm).headD dummyArbCand).path,
            mismatchFirstReason category⟩) ∧
    (∀ raw, classifyWithFulltextAndLlm file_name emb llm (.unparsed raw) =
      some ⟨((buildCandidates emb llm).headD dummyArbCand).path,
        parseFailReason raw⟩) ∧
    (∀ category reason raw, ∃ r,
      classifyWithFulltextAndLlm file_name emb llm (.parsed category reason raw) =
        some r ∧
      r.category_path ∈ (buildCandidates emb llm).map ArbCand.path) ∧
    (∀ raw, ∃ r,
      classifyWithFulltextAndLlm file_name emb llm (.unparsed raw) = some r ∧
      r.category_path ∈ (buildCandidates emb llm).map ArbCand.path) := by
  have hhead : (buildCandidates emb llm).headD dummyArbCand ∈
      buildCandidates emb llm := by
    rcases hc : buildCandidates emb llm with _ | ⟨c, cs⟩
    · exact absurd hc hcands
    · simp
  have hun : ∀ raw, classifyWithFulltextAndLlm file_name emb llm (.unparsed raw) =
      some ⟨((buildCandidates emb llm).headD dummyArbCand).path,
        parseFailReason raw⟩ := by
    intro raw
    simp only [classifyWithFulltextAndLlm, if_neg hname, if_neg hcands]
  have hfall : ∀ category reason raw,
      (∀ cat ∈ buildCandidates emb llm, cat.path ≠ category) →
      classifyWithFulltextAndLlm file_name emb llm (.parsed category reason raw) =
        match (buildCandidates emb llm).find? fun cat => cat.score.isSome with
        | some vr => some ⟨vr.path, mismatchVecReason category⟩
        | none => some ⟨((buildCandidates emb llm).headD dummyArbCand).path,
            mismatchFirstReason category⟩ := by
    intro category reason raw hno
    have hany : ((buildCandidates emb llm).any fun cat =>
        decide (cat.path = category)) = false := by
      rw [Bool.eq_false_iff]
      intro hx
      obtain ⟨cat, hcat, hdec⟩ := List.any_eq_true.mp hx
      exact hno cat hcat (of_decide_eq_true hdec)
    simp only [classifyWithFulltextAndLlm, if_neg hname, if_neg hcands, hany,
      Bool.false_eq_true, if_false]
  refine ⟨hfall, hun, ?_, ?_⟩
  · intro category reason raw
    by_cases hany : ((buildCandidates emb llm).any fun cat =>
        decide (cat.path = category)) = true
    · refine ⟨⟨category, reason⟩, ?_, ?_⟩
      · simp only [classifyWithFulltextAndLlm, if_neg hname, if_neg hcands, hany,
          if_true]
      · obtain ⟨cat, hcat, hdec⟩ := List.any_eq_true.mp hany
        have hp := of_decide_eq_true hdec
        exact hp ▸ List.mem_map_of_mem ArbCand.path hcat
    · have hno : ∀ cat ∈ buildCandidates emb llm, cat.path ≠ category := by
        intro cat hcat hp
        exact hany (List.any_eq_true.mpr ⟨cat, hcat, decide_eq_true hp⟩)
      rcases hf : (buildCandidates emb llm).find? fun cat => cat.score.isSome
          with _ | vr
      · rw [hfall category reason raw hno, hf]
        exact ⟨_, rfl, List.mem_map_of_mem ArbCand.path hhead⟩
      · rw [hfall category reason raw hno, hf]
        exact ⟨_, rfl, List.mem_map_of_mem ArbCand.path
          (List.mem_of_find?_eq_some hf)⟩
  · intro raw
    rw [hun raw]
    exact ⟨_, rfl, List.mem_map_of_mem ArbCand.path hhead⟩

/-- Witness for C5: parse failure over one candidate falls back to it. -/
theorem C5_oracle_fallback_witness :
    classifyWithFulltextAndLlm "f" [⟨"A", Rat.mk' 1 2⟩] none (.unparsed "oops") =
      some ⟨"A", parseFailReason "oops"⟩ := by
  have h := (C5_oracle_fallback_amended "f" [⟨"A", Rat.mk' 1 2⟩] none (by decide)
    (by decide)).2.1 "oops"
  exact h.trans (by decide)

/-- Counterexample to C5 as stated: for the merged candidate list A(0.5),
B(0.9) — not descending-sorted — and a decoded category matching no
candidate, the source falls back to A, the first score-carrying candidate,
while the highest-scored retrieval candidate is B. -/
theorem C5_oracle_fallback_cex :
    classifyWithFulltextAndLlm "f" [⟨"A", Rat.mk' 1 2⟩, ⟨"B", Rat.mk' 9 10⟩] none
        (.parsed "X" "r" "raw") = some ⟨"A", mismatchVecReason "X"⟩ ∧
    specHighestScored
        (buildCandidates [⟨"A", Rat.mk' 1 2⟩, ⟨"B", Rat.mk' 9 10⟩] none) =
      some ⟨"B", some (Rat.mk' 9 10), "向量检索"⟩ ∧
    "A" ≠ "B" ∧ (Rat.mk' 1 2 : ℚ) = 1 / 2 ∧ (Rat.mk' 9 10 : ℚ) = 9 / 10 := by
  refine ⟨by decide, by decide, by decide, ?_, ?_⟩ <;>
    rw [Rat.mk'_eq_divInt, Rat.divInt_eq_div] <;> norm_num

/-! # Claim C6 -/

/-- **C6**, amended.  The cascade order, the first-match rule and that every
resolution is a member of the level's candidate list all hold.  But the
extracted oracle answer is stripped of leading/trailing whitespace
(`class_answer_list[0].strip()`) before the cascade runs, so the answer
`" 离心泵 "` against candidate `"离心泵"` resolves already via the EXACT
matcher, not via the normalised matcher. -/
theorem C6_matcher_cascade_amended (ans : String) (cats : List CatRef) :
    (∀ cat, resolveAnswer ans cats = some cat → cat ∈ cats) ∧
    (∀ cat, exactMatch ans cats = some cat →
      resolveAnswer ans cats = some cat) ∧
    (exactMatch ans cats = none → ∀ cat, containMatch ans cats = some cat →
      resolveAnswer ans cats = some cat) ∧
    (exactMatch ans cats = none → containMatch ans cats = none →
      ∀ cat, normMatch ans cats = some cat →
      resolveAnswer ans cats = some cat) ∧
    (exactMatch ans cats = none → containMatch ans cats = none →
      normMatch ans cats = none →
      resolveAnswer ans cats = caseMatch ans cats) ∧
    (∀ text cap, extractFirstAnswer (pyStrip text).data = some cap →
      processLevelResponse text cats =
        if strIn "无法确定" (pyStrip ⟨cap⟩) || strIn "不确定" (pyStrip ⟨cap⟩)
        then none
        else resolveAnswer (pyStrip ⟨cap⟩) cats) := by
  refine ⟨fun cat h => resolveAnswer_mem h, ?_, ?_, ?_, ?_, ?_⟩
  · intro cat h
    simp [resolveAnswer, h]
  · intro he cat h
    simp [resolveAnswer, he, h]
  · intro he hc cat h
    simp [resolveAnswer, he, hc, h]
  · intro he hc hn
    simp [resolveAnswer, he, hc, hn]
  · intro text cap h
    simp only [processLevelResponse, h]

/-- Witness for C6: the concrete answer `"离心泵"` resolves to a member of the
candidate list. -/
theorem C6_matcher_cascade_witness :
    (⟨"0101", "离心泵"⟩ : CatRef) ∈ [(⟨"0101", "离心泵"⟩ : CatRef)] :=
  (C6_matcher_cascade_amended "离心泵" [⟨"0101", "离心泵"⟩]).1
    ⟨"0101", "离心泵"⟩ (by decide)

/-- Counterexample to C6 as stated: the extracted answer `" 离心泵 "` is
stripped to `"离心泵"` before matching, the exact matcher then succeeds on
it, and the full level-response processing resolves the stray-whitespace
answer — so resolution happens via exact equality, not via the normalised
(punctuation/whitespace-stripped) matcher. -/
theorem C6_matcher_cascade_cex :
    pyStrip " 离心泵 " = "离心泵" ∧
    exactMatch (pyStrip " 离心泵 ") [⟨"0101", "离心泵"⟩] =
      some ⟨"0101", "离心泵"⟩ ∧
    processLevelResponse "\x7b\"answer\":\" 离心泵 \"\x7d" [⟨"0101", "离心泵"⟩] =
      some ⟨"0101", "离心泵"⟩ :=
  ⟨by decide, by decide, by decide⟩

/-! # Claim C8 -/

/-- **C8**, confirmed.  `_classify_with_llm` on an empty taxonomy yields no
path (the source returns Python `None`, which its callers treat exactly as an
empty path), and it never raises: every oracle transport failure is consumed
by the `try/except` of `_llm_classify_level`, which this embedding makes a
total function.  For every taxonomy and oracle: an oracle raise at level 1
yields no path (the names accumulated before level 1, i.e. none); a raise at
level 2 after a successful level 1 yields exactly `[c1.name]`; a raise at
level 3 after successful levels 1 and 2 yields exactly
`[c1.name, c2.name]`. -/
theorem C8_level_failure_truncates :
    (∀ oracle file_name, classifyWithLlm [] oracle file_name = none) ∧
    (∀ cache oracle file_name,
      oracle file_name (getLevelCategories cache 1 none) 1 none = .error () →
      classifyWithLlm cache oracle file_name = none) ∧
    (∀ cache oracle file_name c1, cache ≠ [] →
      llmClassifyLevel oracle file_name (getLevelCategories cache 1 none)
        1 none = some c1 →
      oracle file_name (getLevelCategories cache 2 (some c1.code)) 2
        (some c1.name) = .error () →
      classifyWithLlm cache oracle file_name = some [c1.name]) ∧
    (∀ cache oracle file_name c1 c2 n1, cache ≠ [] →
      llmClassifyLevel oracle file_name (getLevelCategories cache 1 none)
        1 none = some c1 →
      dictGet? cache c1.code = some n1 → n1.children ≠ [] →
      getLevelCategories cache 2 (some c1.code) ≠ [] →
      llmClassifyLevel oracle file_name
        (getLevelCategories cache 2 (some c1.code)) 2 (some c1.name) = some c2 →
      oracle file_name (getLevelCategories cache 3 (some c2.code)) 3
        (some (c1.name ++ "/" ++ c2.name)) = .error () →
      classifyWithLlm cache oracle file_name = some [c1.name, c2.name]) := by
  refine ⟨?_, ?_, ?_, ?_⟩
  · intro oracle file_name
    simp [classifyWithLlm]
  · intro cache oracle file_name h
    by_cases hc : cache = []
    · simp [classifyWithLlm, hc]
    · simp [classifyWithLlm, if_neg hc, llmClassifyLevel, h]
  · intro cache oracle file_name c1 hc h1 h2
    simp only [classifyWithLlm, if_neg hc, h1]
    rcases hd : dictGet? cache c1.code with _ | n1
    · simp
    · by_cases hch : n1.children = []
      · simp [hch]
      · by_cases hcat : getLevelCategories cache 2 (some c1.code) = []
        · simp [hcat, hch]
        · simp [hch, hcat, llmClassifyLevel, h2]
  · intro cache oracle file_name c1 c2 n1 hc h1 hdict hch hcat h2 h3
    simp only [classifyWithLlm, if_neg hc, h1, hdict, if_neg hch, if_neg hcat, h2]
    rcases hd2 : dictGet? n1.children c2.code with _ | n2
    · simp
    · by_cases hch2 : n2.children = []
      · simp [hch2]
      · by_cases hcat3 : getLevelCategories cache 3 (some c2.code) = []
        · simp [hch2, hcat3]
        · simp [hch2, hcat3, llmClassifyLevel, h3]

/-- Witness for C8: on the two-node taxonomy 01/0101 an oracle that answers
level 1 and raises at level 2 yields exactly the level-1 name. -/
theorem C8_level_failure_truncates_witness :
    classifyWithLlm (buildCategoryTree [⟨"01", "泵类", 2⟩, ⟨"0101", "离心泵", 4⟩])
      (fun _ _ level _ =>
        if level = 1 then Except.ok "\x7b\"answer\":\"泵类\"\x7d"
        else Except.error ()) "给水泵" = some ["泵类"] :=
  C8_level_failure_truncates.2.2.1
    (buildCategoryTree [⟨"01", "泵类", 2⟩, ⟨"0101", "离心泵", 4⟩])
    (fun _ _ level _ =>
      if level = 1 then Except.ok "\x7b\"answer\":\"泵类\"\x7d"
      else Except.error ()) "给水泵" ⟨"01", "泵类"⟩
    (by decide) (by decide) rfl

/-! # Claims C9 and C10: taxonomy tree structure -/


theorem mem_dictInsert {α : Type} {d : List (String × α)} {k : String} {v : α}
    {p : String × α} (hp : p ∈ dictInsert d k v) : p ∈ d ∨ p = (k, v) := by
  unfold dictInsert at hp
  split at hp
  · obtain ⟨⟨q1, q2⟩, hq, hpe⟩ := List.mem_map.mp hp
    by_cases hk : q1 = k
    · right
      rw [← hpe]
      simp [hk]
    · left
      rw [← hpe]
      simpa [hk] using hq
  · rcases List.mem_append.mp hp with h | h
    · exact Or.inl h
    · right
      simpa using h

theorem not_mem_keys_of_find?_isSome_ne {α : Type} {d : List (String × α)}
    {k : String} (h : ¬(d.find? fun p => decide (p.1 = k)).isSome = true) :
    k ∉ d.map Prod.fst := by
  intro hk
  obtain ⟨⟨p1, p2⟩, hp, hpk⟩ := List.mem_map.mp hk
  apply h
  rw [List.find?_isSome]
  exact ⟨(p1, p2), hp, by simpa using hpk⟩

theorem keys_dictInsert_nodup {α : Type} {d : List (String × α)} {k : String}
    (v : α) (h : (d.map Prod.fst).Nodup) :
    ((dictInsert d k v).map Prod.fst).Nodup := by
  unfold dictInsert
  split
  · rw [List.map_map]
    have he : d.map (Prod.fst ∘ fun p => if p.1 = k then (k, v) else p) =
        d.map Prod.fst := by
      apply List.map_congr_left
      intro q hq
      by_cases hk : q.1 = k <;> simp [hk]
    rw [he]
    exact h
  · rename_i hf
    rw [List.map_append]
    simp only [List.map_cons, List.map_nil]
    rw [List.nodup_append]
    exact ⟨h, List.nodup_singleton k,
      fun a ha hb => by
        rw [List.mem_singleton] at hb
        subst hb
        exact not_mem_keys_of_find?_isSome_ne (by simpa using hf) ha⟩

theorem keys_dictUpd {α : Type} (d : List (String × α)) (k : String)
    (f : α → α) : (dictUpd d k f).map Prod.fst = d.map Prod.fst := by
  unfold dictUpd
  rw [List.map_map]
  apply List.map_congr_left
  intro q hq
  by_cases hk : q.1 = k <;> simp [hk]

theorem mem_dictUpd {α : Type} {d : List (String × α)} {k : String} {f : α → α}
    {p : String × α} (hp : p ∈ dictUpd d k f) :
    (p ∈ d ∧ p.1 ≠ k) ∨ ∃ v, (k, v) ∈ d ∧ p = (k, f v) := by
  unfold dictUpd at hp
  obtain ⟨⟨q1, q2⟩, hq, hpe⟩ := List.mem_map.mp hp
  by_cases hk : q1 = k
  · right
    subst hk
    refine ⟨q2, hq, ?_⟩
    rw [← hpe]
    simp
  · left
    constructor
    · rw [← hpe]
      simpa [hk] using hq
    · rw [← hpe]
      simp only [if_neg hk]
      exact hk

theorem dictGet?_cons {α : Type} (a : String) (b : α)
    (rest : List (String × α)) (k : String) :
    dictGet? ((a, b) :: rest) k = if a = k then some b else dictGet? rest k := by
  by_cases hk : a = k <;> simp [dictGet?, List.find?_cons, hk]

theorem mem_of_dictGet?_eq_some {α : Type} {d : List (String × α)} {k : String}
    {v : α} (h : dictGet? d k = some v) : (k, v) ∈ d := by
  unfold dictGet? at h
  rcases hf : d.find? fun p => decide (p.1 = k) with _ | p
  · rw [hf] at h
    cases h
  · rw [hf] at h
    obtain ⟨p1, p2⟩ := p
    have hm := List.mem_of_find?_eq_some hf
    have hk : p1 = k := by
      have hd := List.find?_some hf
      simpa using hd
    cases h
    subst hk
    exact hm

theorem dictGet?_eq_some_of_mem {α : Type} {d : List (String × α)}
    (hnd : (d.map Prod.fst).Nodup) {k : String} {v : α} (h : (k, v) ∈ d) :
    dictGet? d k = some v := by
  induction d with
  | nil => cases h
  | cons p rest ih =>
    obtain ⟨p1, p2⟩ := p
    rw [List.map_cons, List.nodup_cons] at hnd
    rcases List.mem_cons.mp h with he | hm
    · cases he
      rw [dictGet?_cons, if_pos rfl]
    · have hk : p1 ≠ k := by
        intro he
        subst he
        exact hnd.1 (List.mem_map.mpr ⟨(p1, v), hm, rfl⟩)
      rw [dictGet?_cons, if_neg hk]
      exact ih hnd.2 hm

theorem mem_unique_keys {α : Type} {d : List (String × α)}
    (hnd : (d.map Prod.fst).Nodup) {k : String} {a b : α}
    (ha : (k, a) ∈ d) (hb : (k, b) ∈ d) : a = b := by
  have h1 := dictGet?_eq_some_of_mem hnd ha
  have h2 := dictGet?_eq_some_of_mem hnd hb
  rw [h1] at h2
  injection h2


theorem treeWF_nil : TreeWF [] :=
  ⟨List.nodup_nil, by intro p hp; cases hp⟩

theorem treeWF_buildStep {t : CatTree} (hwf : TreeWF t) (row : CatRow) :
    TreeWF (buildStep t row) := by
  obtain ⟨hnd, hmem⟩ := hwf
  simp only [buildStep]
  by_cases h2 : row.code_length = 2
  · rw [if_pos h2]
    constructor
    · exact keys_dictInsert_nodup _ hnd
    · intro p hp
      rcases mem_dictInsert hp with hp' | hp'
      · exact hmem p hp'
      · subst hp'
        refine ⟨rfl, List.nodup_nil, ?_⟩
        intro q hq
        cases hq
  · rw [if_neg h2]
    by_cases h4 : row.code_length = 4
    · rw [if_pos h4]
      by_cases hpar : (dictGet? t (strTake row.category_code 2)).isSome = true
      · rw [if_pos hpar]
        constructor
        · rw [keys_dictUpd]
          exact hnd
        · intro p hp
          rcases mem_dictUpd hp with ⟨hp', _⟩ | ⟨v, hv, hpe⟩
          · exact hmem p hp'
          · subst hpe
            obtain ⟨hcode, hcnd, hch⟩ := hmem _ hv
            refine ⟨hcode, keys_dictInsert_nodup _ hcnd, ?_⟩
            intro q hq
            rcases mem_dictInsert hq with hq' | hq'
            · exact hch q hq'
            · subst hq'
              refine ⟨rfl, rfl, List.nodup_nil, ?_⟩
              intro r hr
              cases hr
      · rw [if_neg hpar]
        exact ⟨hnd, hmem⟩
    · rw [if_neg h4]
      by_cases h6 : row.code_length = 6
      · rw [if_pos h6]
        split
        · exact ⟨hnd, hmem⟩
        · rename_i n1 hg
          by_cases hp4 : (dictGet? n1.children (strTake row.category_code 4)).isSome = true
          · rw [if_pos hp4]
            constructor
            · rw [keys_dictUpd]
              exact hnd
            · intro p hp
              rcases mem_dictUpd hp with ⟨hp', _⟩ | ⟨v, hv, hpe⟩
              · exact hmem p hp'
              · subst hpe
                obtain ⟨hcode, hcnd, hch⟩ := hmem _ hv
                refine ⟨hcode, ?_, ?_⟩
                · rw [keys_dictUpd]
                  exact hcnd
                · intro q hq
                  have hq2 : q ∈ dictUpd v.children (strTake row.category_code 4)
                      (fun n2 => { n2 with
                        children := dictInsert n2.children row.category_code ⟨row.category_code, row.cate_name, 3⟩ }) := hq
                  rcases mem_dictUpd hq2 with ⟨hq', _⟩ | ⟨w, hw, hqe⟩
                  · exact hch q hq'
                  · subst hqe
                    obtain ⟨hqcode, hqtake, hqnd, hqr⟩ := hch _ hw
                    refine ⟨hqcode, hqtake, keys_dictInsert_nodup _ hqnd, ?_⟩
                    intro r hr
                    rcases mem_dictInsert hr with hr' | hr'
                    · exact hqr r hr'
                    · subst hr'
                      exact ⟨rfl, rfl, rfl⟩
          · rw [if_neg hp4]
            exact ⟨hnd, hmem⟩
      · rw [if_neg h6]
        exact ⟨hnd, hmem⟩

theorem treeWF_buildCategoryTree (rows : List CatRow) :
    TreeWF (buildCategoryTree rows) := by
  suffices h : ∀ t, TreeWF t → TreeWF (rows.foldl buildStep t) from h [] treeWF_nil
  induction rows with
  | nil =>
    intro t ht
    exact ht
  | cons r rs ih =>
    intro t ht
    exact ih (buildStep t r) (treeWF_buildStep ht r)


/-- **C9**, confirmed.  For every input row sequence the built tree has no
orphans: looking up `code[:2]` of any level-2 node's stored code yields
exactly its level-1 parent; looking up `code[:2]` / `code[:4]` of any level-3
node's stored code yields its level-1 grandparent and level-2 parent; a
length-4 row whose parent is absent, a length-6 row whose grandparent or
parent is absent, and a row of any other length leave the tree unchanged. -/
theorem C9_tree_no_orphans (rows : List CatRow) :
    (∀ p ∈ buildCategoryTree rows, ∀ q ∈ p.2.children,
      dictGet? (buildCategoryTree rows) (strTake q.2.code 2) = some p.2) ∧
    (∀ p ∈ buildCategoryTree rows, ∀ q ∈ p.2.children, ∀ r ∈ q.2.children,
      dictGet? (buildCategoryTree rows) (strTake r.2.code 2) = some p.2 ∧
      dictGet? p.2.children (strTake r.2.code 4) = some q.2) ∧
    (∀ t row, row.code_length = 4 →
      dictGet? t (strTake row.category_code 2) = none → buildStep t row = t) ∧
    (∀ t row n1, row.code_length = 6 →
      dictGet? t (strTake row.category_code 2) = some n1 →
      dictGet? n1.children (strTake row.category_code 4) = none →
      buildStep t row = t) ∧
    (∀ t row, row.code_length = 6 →
      dictGet? t (strTake row.category_code 2) = none → buildStep t row = t) ∧
    (∀ t row, row.code_length ≠ 2 → row.code_length ≠ 4 → row.code_length ≠ 6 →
      buildStep t row = t) := by
  obtain ⟨hnd, hmem⟩ := treeWF_buildCategoryTree rows
  refine ⟨?_, ?_, ?_, ?_, ?_, ?_⟩
  · intro p hp q hq
    obtain ⟨hcode, hcnd, hch⟩ := hmem p hp
    obtain ⟨hqcode, hqtake, _, _⟩ := hch q hq
    rw [hqcode, hqtake]
    exact dictGet?_eq_some_of_mem hnd (Prod.mk.eta ▸ hp)
  · intro p hp q hq r hr
    obtain ⟨hcode, hcnd, hch⟩ := hmem p hp
    obtain ⟨hqcode, hqtake, hqnd, hqr⟩ := hch q hq
    obtain ⟨hrcode, hrtake2, hrtake4⟩ := hqr r hr
    rw [hrcode, hrtake2, hrtake4]
    exact ⟨dictGet?_eq_some_of_mem hnd (Prod.mk.eta ▸ hp),
      dictGet?_eq_some_of_mem hcnd (Prod.mk.eta ▸ hq)⟩
  · intro t row h4 hget
    simp only [buildStep, if_neg (by omega : ¬row.code_length = 2), if_pos h4,
      hget]
    simp
  · intro t row n1 h6 hg hget
    simp only [buildStep, if_neg (by omega : ¬row.code_length = 2),
      if_neg (by omega : ¬row.code_length = 4), if_pos h6, hg, hget]
    simp
  · intro t row h6 hg
    simp only [buildStep, if_neg (by omega : ¬row.code_length = 2),
      if_neg (by omega : ¬row.code_length = 4), if_pos h6, hg]
  · intro t row h2 h4 h6
    simp only [buildStep, if_neg h2, if_neg h4, if_neg h6]


theorem mem_getLevelCategories_one {cache : CatTree} {cat : CatRef}
    (h : cat ∈ getLevelCategories cache 1 none) :
    ∃ p ∈ cache, cat = (⟨p.1, p.2.name⟩ : CatRef) := by
  simp only [getLevelCategories, if_pos rfl] at h
  obtain ⟨p, hp, he⟩ := List.mem_map.mp h
  exact ⟨p, hp, he.symm⟩

theorem mem_getLevelCategories_two {cache : CatTree} {pc : String} {cat : CatRef}
    (h : cat ∈ getLevelCategories cache 2 (some pc)) :
    ∃ n1, dictGet? cache pc = some n1 ∧
      ∃ q ∈ n1.children, cat = (⟨q.1, q.2.name⟩ : CatRef) := by
  by_cases hpc : pc = ""
  · simp [getLevelCategories, optTruthy, hpc] at h
  · simp only [getLevelCategories, optTruthy, hpc] at h
    rw [if_neg (by norm_num)] at h
    rw [if_pos (by simp [hpc])] at h
    rcases hd : dictGet? cache pc with _ | n1
    · rw [hd] at h
      cases h
    · rw [hd] at h
      obtain ⟨q, hq, he⟩ := List.mem_map.mp h
      exact ⟨n1, rfl, q, hq, he.symm⟩

theorem mem_getLevelCategories_three {cache : CatTree} {pc : String}
    {cat : CatRef} (h : cat ∈ getLevelCategories cache 3 (some pc)) :
    ∃ p, (cache.find? fun p => (dictGet? p.2.children pc).isSome) = some p ∧
      ∃ n2, dictGet? p.2.children pc = some n2 ∧
        ∃ r ∈ n2.children, cat = (⟨r.1, r.2.name⟩ : CatRef) := by
  by_cases hpc : pc = ""
  · simp [getLevelCategories, optTruthy, hpc] at h
  · simp only [getLevelCategories, optTruthy, hpc] at h
    rw [if_neg (by norm_num)] at h
    rw [if_neg (by simp)] at h
    rw [if_pos (by simp [hpc])] at h
    rcases hf : cache.find? fun p => (dictGet? p.2.children pc).isSome with _ | p
    · rw [hf] at h
      cases h
    · rw [hf] at h
      dsimp only at h
      rcases hd : dictGet? p.2.children pc with _ | n2
      · rw [hd] at h
        cases h
      · rw [hd] at h
        dsimp only at h
        by_cases hch : n2.children = []
        · rw [if_pos hch] at h
          cases h
        · rw [if_neg hch] at h
          obtain ⟨r, hr, he⟩ := List.mem_map.mp h
          exact ⟨p, hf, n2, hd, r, hr, he.symm⟩


theorem chainProp_of_wf {t : CatTree} (hwf : TreeWF t) (oracle : LevelOracle)
    (file_name : String) (path : List String)
    (h : classifyWithLlm t oracle file_name = some path) :
    ChainProp t path := by
  obtain ⟨hnd, hmem⟩ := hwf
  by_cases hc : t = []
  · rw [hc] at h
    simp [classifyWithLlm] at h
  · simp only [classifyWithLlm, if_neg hc] at h
    rcases h1 : llmClassifyLevel oracle file_name (getLevelCategories t 1 none)
        1 none with _ | c1
    · rw [h1] at h
      cases h
    · rw [h1] at h
      dsimp only at h
      obtain ⟨⟨k1, n1⟩, hp1, hc1e⟩ :=
        mem_getLevelCategories_one (llmClassifyLevel_mem h1)
      have hcode : c1.code = k1 := by rw [hc1e]
      have hname : c1.name = n1.name := by rw [hc1e]
      have hlook : dictGet? t k1 = some n1 := dictGet?_eq_some_of_mem hnd hp1
      obtain ⟨_, hcnd1, hch1⟩ := hmem (k1, n1) hp1
      injection h with h'
      subst h'
      rw [hcode, hlook]
      dsimp only
      by_cases hch : n1.children = []
      · rw [if_pos hch]
        exact ⟨(k1, n1), hp1, hname.symm⟩
      · rw [if_neg hch]
        by_cases hcats2 : getLevelCategories t 2 (some k1) = []
        · rw [if_pos hcats2]
          exact ⟨(k1, n1), hp1, hname.symm⟩
        · rw [if_neg hcats2]
          rcases h2 : llmClassifyLevel oracle file_name
              (getLevelCategories t 2 (some k1)) 2 (some c1.name) with _ | c2
          · exact ⟨(k1, n1), hp1, hname.symm⟩
          · dsimp only
            obtain ⟨m1, hd2, ⟨k2, n2⟩, hq, hc2e⟩ :=
              mem_getLevelCategories_two (llmClassifyLevel_mem h2)
            rw [hlook] at hd2
            injection hd2 with hm1
            subst hm1
            have hcode2 : c2.code = k2 := by rw [hc2e]
            have hname2 : c2.name = n2.name := by rw [hc2e]
            have hlookq : dictGet? n1.children k2 = some n2 :=
              dictGet?_eq_some_of_mem hcnd1 hq
            rw [hcode2, hlookq]
            dsimp only
            by_cases hch2 : n2.children = []
            · rw [if_pos hch2]
              exact ⟨(k1, n1), hp1, hname.symm, (k2, n2), hq, hname2.symm⟩
            · rw [if_neg hch2]
              by_cases hcats3 : getLevelCategories t 3 (some k2) = []
              · rw [if_pos hcats3]
                exact ⟨(k1, n1), hp1, hname.symm, (k2, n2), hq, hname2.symm⟩
              · rw [if_neg hcats3]
                rcases h3 : llmClassifyLevel oracle file_name
                    (getLevelCategories t 3 (some k2)) 3
                    (some (c1.name ++ "/" ++ c2.name)) with _ | c3
                · exact ⟨(k1, n1), hp1, hname.symm, (k2, n2), hq, hname2.symm⟩
                · dsimp only
                  obtain ⟨pstar, hfind, n2star, hdstar, ⟨k3, n3⟩, hr, hc3e⟩ :=
                    mem_getLevelCategories_three (llmClassifyLevel_mem h3)
                  have hname3 : c3.name = n3.name := by rw [hc3e]
                  have hpsmem : pstar ∈ t := List.mem_of_find?_eq_some hfind
                  have hq2 : (k2, n2star) ∈ pstar.2.children :=
                    mem_of_dictGet?_eq_some hdstar
                  obtain ⟨_, _, hchstar⟩ := hmem pstar hpsmem
                  have hts : strTake k2 2 = pstar.1 := (hchstar (k2, n2star) hq2).2.1
                  have ht1 : strTake k2 2 = k1 := (hch1 (k2, n2) hq).2.1
                  have hkey : pstar.1 = k1 := by rw [← hts]; exact ht1
                  have hps2 : pstar.2 = n1 := by
                    apply mem_unique_keys hnd ?_ hp1
                    rw [← hkey]
                    exact Prod.mk.eta ▸ hpsmem
                  rw [hps2] at hdstar
                  rw [hlookq] at hdstar
                  injection hdstar with hn2s
                  subst hn2s
                  exact ⟨(k1, n1), hp1, hname.symm, (k2, n2), hq, hname2.symm,
                    (k3, n3), hr, hname3.symm⟩

/-- Witness for C9: on the two-row taxonomy 01/0101 the level-2 node's parent
lookup returns the level-1 node, and a length-4 row with an absent parent is
dropped. -/
theorem C9_tree_no_orphans_witness :
    dictGet? (buildCategoryTree [⟨"01", "泵类", 2⟩, ⟨"0101", "离心泵", 4⟩])
        (strTake "0101" 2) =
      some ⟨"01", "泵类", 1, [("0101", ⟨"0101", "离心泵", 2, []⟩)]⟩ ∧
    buildStep [] ⟨"0101", "离心泵", 4⟩ = [] :=
  ⟨(C9_tree_no_orphans [⟨"01", "泵类", 2⟩, ⟨"0101", "离心泵", 4⟩]).1
      ("01", ⟨"01", "泵类", 1, [("0101", ⟨"0101", "离心泵", 2, []⟩)]⟩) (by decide)
      ("0101", ⟨"0101", "离心泵", 2, []⟩) (by decide),
   (C9_tree_no_orphans []).2.2.1 [] ⟨"0101", "离心泵", 4⟩ rfl (by decide)⟩

/-! # Claim C10 -/

/-- **C10**, confirmed.  Every non-`None` path of the level-by-level
classifier over a built taxonomy tree is a connected root-descending chain:
its first entry is the name of a level-1 node of the tree, its second entry
(if present) names a child of that node, its third entry (if present) names a
child of that child, and the path has between 1 and 3 entries — each level's
name is drawn from the candidate list built from exactly that parent's
children. -/
theorem C10_path_is_chain (rows : List CatRow) (oracle : LevelOracle)
    (file_name : String) (path : List String)
    (h : classifyWithLlm (buildCategoryTree rows) oracle file_name = some path) :
    ChainProp (buildCategoryTree rows) path :=
  chainProp_of_wf (treeWF_buildCategoryTree rows) oracle file_name path h

/-- Witness for C10: a deterministic oracle classifying into 泵类/离心泵 on
the two-node taxonomy produces a path that is a chain of the tree. -/
theorem C10_path_is_chain_witness :
    ChainProp (buildCategoryTree [⟨"01", "泵类", 2⟩, ⟨"0101", "离心泵", 4⟩])
      ["泵类", "离心泵"] :=
  C10_path_is_chain [⟨"01", "泵类", 2⟩, ⟨"0101", "离心泵", 4⟩]
    (fun _ _ level _ => Except.ok
      (if level = 1 then "\x7b\"answer\":\"泵类\"\x7d"
       else "\x7b\"answer\":\"离心泵\"\x7d"))
    "给水泵" ["泵类", "离心泵"] (by decide)

end AiClassify
